import Mathlib

/-!
Verification of the WebSocket signaling server (`main.py`) of the
telegram-mini-app-voice-chat-backend repository.

The server keeps two module-level Python dicts:
  rooms : {room_id: {user_id: websocket}}
  users : {user_id: {..user_info, "room_id": room_id}}
We embed Python dicts as association lists in insertion order
(`Dict`), with `dictInsert` modelling `d[k] = v` (update in place if
the key exists, append otherwise), `dictRemove` modelling `del d[k]`,
and `dictGet` modelling `d.get(k)` / `k in d`.

The registry operations (`joinRoom` for the inline join handling of
`websocket_endpoint`, `ConnectionManager.disconnect`,
`ConnectionManager.broadcast_to_room`, `ConnectionManager.send_to_user`,
`ConnectionManager.get_room_participants`) are translated directly from
the source.  Whether an individual `websocket.send_json` raises is an
environment choice, passed in as a predicate `fail : String → Bool`
on the recipient's user id; each operation returns the new state and
the list of `(recipient, message)` pairs actually delivered.
-/

namespace Signal

/-- Python dict with string keys, as an association list in insertion order. -/
abbrev Dict (α : Type) : Type := List (String × α)

/-- Model of `d.get(k)`: first binding of the key, if any. -/
def dictGet {α : Type} : Dict α → String → Option α
  | [], _ => none
  | p :: rest, k => if p.1 = k then some p.2 else dictGet rest k

/-- Model of `k in d`. -/
def dictHas {α : Type} (d : Dict α) (k : String) : Bool :=
  (dictGet d k).isSome

/-- Model of `d[k] = v`: replace the first binding in place, else append. -/
def dictInsert {α : Type} : Dict α → String → α → Dict α
  | [], k, v => [(k, v)]
  | p :: rest, k, v => if p.1 = k then (k, v) :: rest else p :: dictInsert rest k v

/-- Model of `del d[k]` (on duplicate-free dicts): drop all bindings of the key. -/
def dictRemove {α : Type} : Dict α → String → Dict α
  | [], _ => []
  | p :: rest, k => if p.1 = k then dictRemove rest k else p :: dictRemove rest k

/-- Model of `{**d1, **d2}` read left to right: insert the bindings of `d2` into `d1`. -/
def dictMerge {α : Type} (d1 d2 : Dict α) : Dict α :=
  d2.foldl (fun a p => dictInsert a p.1 p.2) d1

/-- The keys of a dict are pairwise distinct (always true of a real Python dict). -/
abbrev NodupKeys {α : Type} (d : Dict α) : Prop :=
  (d.map Prod.fst).Nodup

/-! The server state: the two module-level dicts of `main.py`.
Channel handles (`WebSocket` objects) are modelled as opaque `Nat` ids. -/

/-- The two global maps of `main.py`:
`rooms : {room_id: {user_id: websocket}}` and
`users : {user_id: {..user_info, "room_id": room_id}}`. -/
structure SState where
  rooms : Dict (Dict Nat)
  users : Dict (Dict String)
  deriving DecidableEq, Repr

/-- The state at process start: both dicts empty. -/
def initState : SState := { rooms := [], users := [] }

/-- The record stored in `users` on join: `{**user_info, "room_id": room_id}`. -/
def mkUserRec (user_info : Dict String) (room_id : String) : Dict String :=
  dictInsert user_info "room_id" room_id

/-- A participant entry built by `get_room_participants`:
`{"user_id": user_id, **users[user_id]}`. -/
def participantEntry (user_id : String) (rec : Dict String) : Dict String :=
  dictMerge [("user_id", user_id)] rec

/-- The join handling inlined in `websocket_endpoint` (lines 276-283):
`if room_id not in rooms: rooms[room_id] = {}` then
`rooms[room_id][user_id] = websocket` and
`users[user_id] = {**user_info, "room_id": room_id}`. -/
def joinRoom (s : SState) (room_id user_id : String) (ws : Nat)
    (user_info : Dict String) : SState :=
  { rooms :=
      dictInsert s.rooms room_id
        (dictInsert (match dictGet s.rooms room_id with
          | none => []
          | some conns => conns) user_id ws),
    users := dictInsert s.users user_id (mkUserRec user_info room_id) }

/-- The rooms-map half of `ConnectionManager.disconnect` (lines 58-62). -/
def removeFromRooms (rooms : Dict (Dict Nat)) (room_id user_id : String) :
    Dict (Dict Nat) :=
  match dictGet rooms room_id with
  | none => rooms
  | some conns =>
    if dictHas conns user_id then
      if dictRemove conns user_id = [] then dictRemove rooms room_id
      else dictInsert rooms room_id (dictRemove conns user_id)
    else rooms

/-- The users-map half of `ConnectionManager.disconnect` (lines 64-65):
`if user_id in users: del users[user_id]`. -/
def removeFromUsers (users : Dict (Dict String)) (user_id : String) :
    Dict (Dict String) :=
  if dictHas users user_id then dictRemove users user_id else users

/-- `ConnectionManager.disconnect(room_id, user_id)`. -/
def disconnect (s : SState) (room_id user_id : String) : SState :=
  { rooms := removeFromRooms s.rooms room_id user_id,
    users := removeFromUsers s.users user_id }

/-- Messages the server sends out, one constructor per `type` value
it ever puts on the wire.  Payloads of `offer`/`answer`/`ice_candidate`
are opaque; `data.get(...)` can yield `None`, hence `Option String`. -/
inductive OutMsg where
  | roomState (participants : List (Dict String))
  | userJoined (user_id : String) (user_info : Dict String)
  | userLeft (user_id : String)
  | offer (from_user_id : String) (payload : Option String)
  | answer (from_user_id : String) (payload : Option String)
  | iceCandidate (from_user_id : String) (payload : Option String)
  | speaking (user_id : String) (is_speaking : Bool)
  deriving DecidableEq, Repr

/-- The `for user_id, websocket in rooms[room_id].items()` loop of
`broadcast_to_room`: returns the deliveries made and the users whose
send raised (in iteration order). -/
def broadcastLoop (exclude : Option String) (fail : String → Bool)
    (msg : OutMsg) : List (String × Nat) → List (String × OutMsg) × List String
  | [] => ([], [])
  | p :: rest =>
    if some p.1 = exclude then broadcastLoop exclude fail msg rest
    else if fail p.1 then
      ((broadcastLoop exclude fail msg rest).1,
       p.1 :: (broadcastLoop exclude fail msg rest).2)
    else
      ((p.1, msg) :: (broadcastLoop exclude fail msg rest).1,
       (broadcastLoop exclude fail msg rest).2)

/-- `ConnectionManager.broadcast_to_room(room_id, message, exclude_user)`:
send to every user in the room except `exclude`, collect the users whose
send raised, then `self.disconnect(room_id, user_id)` each of them. -/
def broadcast_to_room (s : SState) (room_id : String) (msg : OutMsg)
    (exclude : Option String) (fail : String → Bool) :
    SState × List (String × OutMsg) :=
  match dictGet s.rooms room_id with
  | none => (s, [])
  | some conns =>
    ((broadcastLoop exclude fail msg conns).2.foldl
       (fun st u => disconnect st room_id u) s,
     (broadcastLoop exclude fail msg conns).1)

/-- `ConnectionManager.send_to_user(room_id, user_id, message)`:
deliver if the user is in the room, `disconnect` them if the send raises. -/
def send_to_user (s : SState) (room_id user_id : String) (msg : OutMsg)
    (fail : String → Bool) : SState × List (String × OutMsg) :=
  match dictGet s.rooms room_id with
  | none => (s, [])
  | some conns =>
    if dictHas conns user_id then
      if fail user_id then (disconnect s room_id user_id, [])
      else (s, [(user_id, msg)])
    else (s, [])

/-- The accumulation loop of `ConnectionManager.get_room_participants`:
skip any room member whose `users` entry is missing. -/
def listParts (users : Dict (Dict String)) : List (String × Nat) → List (Dict String)
  | [] => []
  | p :: rest =>
    match dictGet users p.1 with
    | some rec => participantEntry p.1 rec :: listParts users rest
    | none => listParts users rest

/-- `ConnectionManager.get_room_participants(room_id)`. -/
def get_room_participants (s : SState) (room_id : String) : List (Dict String) :=
  match dictGet s.rooms room_id with
  | none => []
  | some conns => listParts s.users conns

/-! The per-connection protocol handler, `websocket_endpoint`.  A run is
driven by the list of messages received before the channel closes; the
run ends when that list is exhausted (`receive_json` raising
`WebSocketDisconnect`), which funnels into the `finally` block. -/

/-- Inbound messages, keyed by their `"type"` field.  `target` and the
payload come from `data.get(...)`, which yields `None` when absent.
`other` stands for any message with an unrecognized or missing type. -/
inductive InMsg where
  | join (user_info : Dict String)
  | offer (target : Option String) (payload : Option String)
  | answer (target : Option String) (payload : Option String)
  | ice (target : Option String) (payload : Option String)
  | speaking (is_speaking : Bool)
  | other
  deriving DecidableEq, Repr

/-- `send_to_user` called with `data.get("target_user_id")`: a missing
target (`None`) is never a key of the room dict, so nothing is sent. -/
def sendToTarget (s : SState) (room_id : String) (target : Option String)
    (msg : OutMsg) (fail : String → Bool) : SState × List (String × OutMsg) :=
  match target with
  | none => (s, [])
  | some u => send_to_user s room_id u msg fail

/-- One iteration of the `while True` dispatch loop of
`websocket_endpoint` (lines 309-346): relay `offer`/`answer`/
`ice_candidate` to the target, broadcast `speaking` excluding the
sender, ignore anything else (including a late `join`). -/
def handleSignal (room_id user_id : String) (s : SState) (m : InMsg)
    (fail : String → Bool) : SState × List (String × OutMsg) :=
  match m with
  | InMsg.offer t p => sendToTarget s room_id t (OutMsg.offer user_id p) fail
  | InMsg.answer t p => sendToTarget s room_id t (OutMsg.answer user_id p) fail
  | InMsg.ice t p => sendToTarget s room_id t (OutMsg.iceCandidate user_id p) fail
  | InMsg.speaking b =>
    broadcast_to_room s room_id (OutMsg.speaking user_id b) (some user_id) fail
  | _ => (s, [])

/-- The `finally` block of `websocket_endpoint` (lines 352-360): always
`disconnect` and then broadcast `user_left` (with no exclusion). -/
def finallyStep (room_id user_id : String) (s : SState) (fail : String → Bool) :
    SState × List (String × OutMsg) :=
  broadcast_to_room (disconnect s room_id user_id) room_id
    (OutMsg.userLeft user_id) none fail

/-- The `while True` loop followed by the `finally` block. -/
def runLoop (room_id user_id : String) (fail : String → Bool) :
    SState → List InMsg → SState × List (String × OutMsg)
  | s, [] => finallyStep room_id user_id s fail
  | s, m :: rest =>
    ((runLoop room_id user_id fail (handleSignal room_id user_id s m fail).1 rest).1,
     (handleSignal room_id user_id s m fail).2 ++
       (runLoop room_id user_id fail (handleSignal room_id user_id s m fail).1 rest).2)

/-- A whole run of `websocket_endpoint` for connection `(room_id, user_id)`
with channel handle `ws`, receiving `script` and then closing.  If the
first message is a `join`, the user is registered, `room_state` is sent
back (a raising send jumps to `finally`), `user_joined` is broadcast to
the others, and the dispatch loop runs; any other first message skips
registration but still falls into the dispatch loop; in every case the
`finally` block runs at the end. -/
def runEndpoint (room_id user_id : String) (ws : Nat) (s : SState)
    (script : List InMsg) (fail : String → Bool) :
    SState × List (String × OutMsg) :=
  match script with
  | [] => finallyStep room_id user_id s fail
  | InMsg.join info :: rest =>
    if fail user_id then
      finallyStep room_id user_id (joinRoom s room_id user_id ws info) fail
    else
      ((runLoop room_id user_id fail
          (broadcast_to_room (joinRoom s room_id user_id ws info) room_id
            (OutMsg.userJoined user_id info) (some user_id) fail).1 rest).1,
       (user_id, OutMsg.roomState
          (get_room_participants (joinRoom s room_id user_id ws info) room_id)) ::
        ((broadcast_to_room (joinRoom s room_id user_id ws info) room_id
            (OutMsg.userJoined user_id info) (some user_id) fail).2 ++
         (runLoop room_id user_id fail
            (broadcast_to_room (joinRoom s room_id user_id ws info) room_id
              (OutMsg.userJoined user_id info) (some user_id) fail).1 rest).2))
  | _ :: rest => runLoop room_id user_id fail s rest

/-- True of every inbound message other than a `join`. -/
def notJoin : InMsg → Bool
  | InMsg.join _ => false
  | _ => true

/-- True of every run whose connection never sends a valid first `join`:
either the channel closes before any message arrives (empty script) or
the first message is not a `join`. -/
def noJoinFirst : List InMsg → Bool
  | [] => true
  | m :: _ => notJoin m

/-- The user is registered nowhere: no users record and no membership in
any room's connection map. -/
def absentUser (s : SState) (u : String) : Prop :=
  dictGet s.users u = none ∧
    ∀ r c, dictGet s.rooms r = some c → dictHas c u = false

/-! Abstract join/leave operation sequences on the registry, for the
room-lifecycle and single-room invariants. -/

/-- One registry mutation: a join (the endpoint's add, lines 276-283)
or a leave (`ConnectionManager.disconnect`). -/
inductive Op where
  | join (room user : String) (ws : Nat) (info : Dict String)
  | leave (room user : String)
  deriving DecidableEq, Repr

/-- Apply one operation to the state. -/
def applyOp (s : SState) : Op → SState
  | Op.join r u w i => joinRoom s r u w i
  | Op.leave r u => disconnect s r u

/-- Run a sequence of operations from the empty registry. -/
def runOps (ops : List Op) : SState :=
  ops.foldl applyOp initState

/-- Invariant: every room present in the rooms map is non-empty. -/
def roomsInv (s : SState) : Prop :=
  ∀ r conns, dictGet s.rooms r = some conns → conns ≠ []

/-- Invariant: no user id is in the connection maps of two distinct rooms. -/
def uniqRoom (s : SState) : Prop :=
  ∀ r1 r2 c1 c2 u, dictGet s.rooms r1 = some c1 → dictGet s.rooms r2 = some c2 →
    dictHas c1 u = true → dictHas c2 u = true → r1 = r2

/-- Guard for a join: the user is in no room other than the one joined.
(List.all over the rooms map, decidable.) -/
def okJoin (s : SState) (room u : String) : Bool :=
  s.rooms.all (fun rc => !(dictHas rc.2 u) || rc.1 == room)

/-- An operation sequence in which every join is guarded by `okJoin`
at the state where it executes. -/
def okOps : SState → List Op → Bool
  | _, [] => true
  | s, op :: rest =>
    (match op with
     | Op.join r u _ _ => okJoin s r u
     | Op.leave _ _ => true) && okOps (applyOp s op) rest

/-! Concrete test fixtures for witnesses. -/

/-- A room `"r1"` with members `A`, `B`, `C`, all with user records. -/
def demoState3 : SState :=
  { rooms := [("r1", [("A", 10), ("B", 11), ("C", 12)])],
    users := [("A", [("room_id", "r1")]), ("B", [("room_id", "r1")]),
              ("C", [("room_id", "r1")])] }

/-- Failure environment in which only sends to `"B"` raise. -/
def failB : String → Bool := fun u => u == "B"

/-- Failure environment in which no send raises. -/
def noFail : String → Bool := fun _ => false

/-! Basic lemmas about the dict operations. -/

theorem dictGet_dictInsert_self {α : Type} (d : Dict α) (k : String) (v : α) :
    dictGet (dictInsert d k v) k = some v := by
  induction d with
  | nil => simp [dictInsert, dictGet]
  | cons p rest ih =>
    by_cases h : p.1 = k
    · simp [dictInsert, h, dictGet]
    · simp [dictInsert, h, dictGet, ih]

theorem dictGet_dictInsert_ne {α : Type} (d : Dict α) {k k' : String} (v : α)
    (h : k' ≠ k) : dictGet (dictInsert d k v) k' = dictGet d k' := by
  have hk : ¬ k = k' := fun hh => h hh.symm
  induction d with
  | nil => simp [dictInsert, dictGet, hk]
  | cons p rest ih =>
    by_cases hp : p.1 = k
    · have hpk : ¬ p.1 = k' := by rw [hp]; exact hk
      simp [dictInsert, hp, dictGet, hk, hpk]
    · simp [dictInsert, hp, dictGet, ih]

theorem dictGet_dictRemove_self {α : Type} (d : Dict α) (k : String) :
    dictGet (dictRemove d k) k = none := by
  induction d with
  | nil => simp [dictRemove, dictGet]
  | cons p rest ih =>
    by_cases h : p.1 = k
    · simp [dictRemove, h, ih]
    · simp [dictRemove, h, dictGet, ih]

theorem dictGet_dictRemove_ne {α : Type} (d : Dict α) {k k' : String}
    (h : k' ≠ k) : dictGet (dictRemove d k) k' = dictGet d k' := by
  have hk : ¬ k = k' := fun hh => h hh.symm
  induction d with
  | nil => simp [dictRemove]
  | cons p rest ih =>
    by_cases hp : p.1 = k
    · have hpk : ¬ p.1 = k' := by rw [hp]; exact hk
      simp [dictRemove, hp, dictGet, hk, hpk, ih]
    · simp [dictRemove, hp, dictGet, ih]

theorem dictInsert_ne_nil {α : Type} (d : Dict α) (k : String) (v : α) :
    dictInsert d k v ≠ [] := by
  cases d with
  | nil => simp [dictInsert]
  | cons p rest =>
    by_cases h : p.1 = k <;> simp [dictInsert, h]

theorem dictGet_eq_none_iff {α : Type} (d : Dict α) (k : String) :
    dictGet d k = none ↔ ∀ p ∈ d, p.1 ≠ k := by
  induction d with
  | nil => simp [dictGet]
  | cons p rest ih =>
    by_cases h : p.1 = k
    · simp [dictGet, h]
    · simp [dictGet, h, ih]

theorem dictRemove_of_none {α : Type} (d : Dict α) (k : String)
    (h : dictGet d k = none) : dictRemove d k = d := by
  induction d with
  | nil => simp [dictRemove]
  | cons p rest ih =>
    by_cases hp : p.1 = k
    · simp [dictGet, hp] at h
    · simp [dictGet, hp] at h
      simp [dictRemove, hp, ih h]

theorem mem_of_dictGet {α : Type} {d : Dict α} {k : String} {v : α}
    (h : dictGet d k = some v) : (k, v) ∈ d := by
  induction d with
  | nil => simp [dictGet] at h
  | cons p rest ih =>
    by_cases hp : p.1 = k
    · simp [dictGet, hp] at h
      have hpv : (k, v) = p := by
        rcases p with ⟨a, b⟩
        simp only [Prod.mk.injEq]
        simp only at hp h
        exact ⟨hp.symm, h.symm⟩
      rw [hpv]
      exact List.mem_cons_self p rest
    · simp [dictGet, hp] at h
      exact List.mem_cons_of_mem p (ih h)

theorem dictHas_of_dictRemove {α : Type} {d : Dict α} {k k' : String}
    (h : dictHas (dictRemove d k') k = true) : dictHas d k = true := by
  by_cases hk : k = k'
  · rw [hk] at h
    simp [dictHas, dictGet_dictRemove_self] at h
  · rwa [dictHas, dictGet_dictRemove_ne d hk] at h

theorem dictHas_dictRemove_self {α : Type} (d : Dict α) (k : String) :
    dictHas (dictRemove d k) k = false := by
  simp [dictHas, dictGet_dictRemove_self]

theorem length_dictInsert_of_has {α : Type} (d : Dict α) (k : String) (v : α)
    (h : dictHas d k = true) : (dictInsert d k v).length = d.length := by
  induction d with
  | nil => simp [dictHas, dictGet] at h
  | cons p rest ih =>
    by_cases hp : p.1 = k
    · simp [dictInsert, hp]
    · simp [dictHas, dictGet, hp] at h
      simp [dictInsert, hp, ih h]

theorem dictGet_dictMerge_of_none {α : Type} (l : Dict α) :
    ∀ d : Dict α, ∀ k : String, (∀ p ∈ l, p.1 ≠ k) →
      dictGet (dictMerge d l) k = dictGet d k := by
  induction l with
  | nil => intro d k _; rfl
  | cons q rest ih =>
    intro d k h
    have hq : q.1 ≠ k := h q (by simp)
    have hrest : ∀ p ∈ rest, p.1 ≠ k := fun p hp => h p (by simp [hp])
    show dictGet (dictMerge (dictInsert d q.1 q.2) rest) k = dictGet d k
    rw [ih (dictInsert d q.1 q.2) k hrest,
      dictGet_dictInsert_ne d q.2 (fun hh => hq hh.symm)]

theorem dictGet_dictMerge_of_some {α : Type} (l : Dict α) :
    ∀ d : Dict α, ∀ k : String, ∀ v : α, NodupKeys l → dictGet l k = some v →
      dictGet (dictMerge d l) k = some v := by
  induction l with
  | nil => intro d k v _ h; simp [dictGet] at h
  | cons q rest ih =>
    intro d k v hnd h
    have hnd' : NodupKeys rest := (List.nodup_cons.mp hnd).2
    by_cases hq : q.1 = k
    · simp [dictGet, hq] at h
      have hq1 : q.1 ∉ rest.map Prod.fst := (List.nodup_cons.mp hnd).1
      have hrest : ∀ p ∈ rest, p.1 ≠ k := by
        intro p hp hpk
        exact hq1 (hq ▸ hpk ▸ List.mem_map_of_mem Prod.fst hp)
      show dictGet (dictMerge (dictInsert d q.1 q.2) rest) k = some v
      rw [dictGet_dictMerge_of_none rest _ k hrest, hq, h,
        dictGet_dictInsert_self]
    · simp [dictGet, hq] at h
      exact ih (dictInsert d q.1 q.2) k v hnd' h

theorem keys_not_mem_iff {α : Type} (d : Dict α) (k : String) :
    k ∉ d.map Prod.fst ↔ dictGet d k = none := by
  rw [dictGet_eq_none_iff]
  constructor
  · intro h p hp hpk
    exact h (List.mem_map.mpr ⟨p, hp, hpk⟩)
  · intro h hmem
    rcases List.mem_map.mp hmem with ⟨p, hp, hpk⟩
    exact h p hp hpk

theorem nodupKeys_dictInsert {α : Type} (d : Dict α) (k : String) (v : α)
    (h : NodupKeys d) : NodupKeys (dictInsert d k v) := by
  induction d with
  | nil => simp [dictInsert, NodupKeys]
  | cons p rest ih =>
    have h1 : p.1 ∉ rest.map Prod.fst := (List.nodup_cons.mp h).1
    have h2 : NodupKeys rest := (List.nodup_cons.mp h).2
    by_cases hp : p.1 = k
    · simp only [NodupKeys, dictInsert, hp, if_pos rfl, List.map_cons]
      exact List.nodup_cons.mpr ⟨hp ▸ h1, h2⟩
    · simp only [NodupKeys, dictInsert, hp, if_neg hp, List.map_cons]
      refine List.nodup_cons.mpr ⟨?_, ih h2⟩
      rw [keys_not_mem_iff] at h1 ⊢
      rw [dictGet_dictInsert_ne rest v hp]
      exact h1

/-! Lemmas about the registry operations. -/

theorem removeFromRooms_none (rooms : Dict (Dict Nat)) (room u : String)
    (h : dictGet rooms room = none) : removeFromRooms rooms room u = rooms := by
  rw [removeFromRooms, h]

theorem removeFromRooms_some (rooms : Dict (Dict Nat)) (room u : String)
    (conns : Dict Nat) (h : dictGet rooms room = some conns) :
    removeFromRooms rooms room u =
      if dictHas conns u then
        if dictRemove conns u = [] then dictRemove rooms room
        else dictInsert rooms room (dictRemove conns u)
      else rooms := by
  rw [removeFromRooms, h]

theorem roomsInv_joinRoom (s : SState) (room u : String) (ws : Nat)
    (info : Dict String) (h : roomsInv s) : roomsInv (joinRoom s room u ws info) := by
  intro r conns hr
  by_cases hrm : r = room
  · subst hrm
    rw [joinRoom] at hr
    simp only at hr
    rw [dictGet_dictInsert_self] at hr
    cases hr
    exact dictInsert_ne_nil _ u ws
  · rw [joinRoom] at hr
    simp only at hr
    rw [dictGet_dictInsert_ne _ _ hrm] at hr
    exact h r conns hr

theorem roomsInv_disconnect (s : SState) (room u : String)
    (h : roomsInv s) : roomsInv (disconnect s room u) := by
  intro r conns hr
  rw [disconnect] at hr
  simp only at hr
  rcases hg : dictGet s.rooms room with _ | cs
  · rw [removeFromRooms_none s.rooms room u hg] at hr
    exact h r conns hr
  · rw [removeFromRooms_some s.rooms room u cs hg] at hr
    by_cases hu : dictHas cs u
    · rw [if_pos hu] at hr
      by_cases he : dictRemove cs u = []
      · rw [if_pos he] at hr
        by_cases hrm : r = room
        · subst hrm
          rw [dictGet_dictRemove_self] at hr
          cases hr
        · rw [dictGet_dictRemove_ne _ hrm] at hr
          exact h r conns hr
      · rw [if_neg he] at hr
        by_cases hrm : r = room
        · subst hrm
          rw [dictGet_dictInsert_self] at hr
          cases hr
          exact he
        · rw [dictGet_dictInsert_ne _ _ hrm] at hr
          exact h r conns hr
    · rw [if_neg hu] at hr
      exact h r conns hr

theorem roomsInv_foldOps (ops : List Op) :
    ∀ s : SState, roomsInv s → roomsInv (ops.foldl applyOp s) := by
  induction ops with
  | nil => intro s h; exact h
  | cons op rest ih =>
    intro s h
    rw [List.foldl_cons]
    apply ih
    cases op with
    | join r u w i => exact roomsInv_joinRoom s r u w i h
    | leave r u => exact roomsInv_disconnect s r u h

/-- C1: a room key is present in the rooms map iff the room has at least
one participant, after any sequence of join and leave operations starting
from the empty registry.  A room is created by the first join and deleted
with its last participant, so presence of the key coincides with having
a non-empty connection map. -/
theorem C1_room_present_iff_nonempty (ops : List Op) (r : String) :
    (dictGet (runOps ops).rooms r).isSome = true ↔
      ∃ conns, dictGet (runOps ops).rooms r = some conns ∧ 1 ≤ conns.length := by
  have hinv : roomsInv (runOps ops) := by
    apply roomsInv_foldOps
    intro r' conns h
    simp [initState, dictGet] at h
  constructor
  · intro h
    rcases Option.isSome_iff_exists.mp h with ⟨conns, hc⟩
    refine ⟨conns, hc, ?_⟩
    have := hinv r conns hc
    rcases conns with _ | ⟨p, rest⟩
    · exact absurd rfl this
    · simp
  · rintro ⟨conns, hc, _⟩
    rw [hc]
    rfl

/-! Absence lemmas for `disconnect`: after `disconnect s room u`, the user
`u` is gone from `room`'s connection map and from the users map, and
`disconnect` never adds a membership that was not there before. -/

theorem users_disconnect_self (s : SState) (room u : String) :
    dictGet (disconnect s room u).users u = none := by
  rw [disconnect]
  simp only
  rw [removeFromUsers]
  by_cases h : dictHas s.users u
  · rw [if_pos h]
    exact dictGet_dictRemove_self s.users u
  · rw [if_neg h]
    rw [dictHas] at h
    exact Option.not_isSome_iff_eq_none.mp h

theorem rooms_disconnect_self (s : SState) (room u : String) :
    ∀ c', dictGet (disconnect s room u).rooms room = some c' →
      dictHas c' u = false := by
  intro c' hc
  rw [disconnect] at hc
  simp only at hc
  rcases hg : dictGet s.rooms room with _ | cs
  · rw [removeFromRooms_none s.rooms room u hg, hg] at hc
    cases hc
  · rw [removeFromRooms_some s.rooms room u cs hg] at hc
    by_cases hu : dictHas cs u
    · rw [if_pos hu] at hc
      by_cases he : dictRemove cs u = []
      · rw [if_pos he, dictGet_dictRemove_self] at hc
        cases hc
      · rw [if_neg he, dictGet_dictInsert_self] at hc
        cases hc
        exact dictHas_dictRemove_self cs u
    · rw [if_neg hu, hg] at hc
      cases hc
      exact Bool.not_eq_true _ ▸ (Bool.eq_false_iff.mpr hu)

theorem mem_rooms_disconnect (s : SState) (room u : String) {r' : String}
    {c' : Dict Nat} {u' : String}
    (h1 : dictGet (disconnect s room u).rooms r' = some c')
    (m1 : dictHas c' u' = true) :
    ∃ c, dictGet s.rooms r' = some c ∧ dictHas c u' = true := by
  rw [disconnect] at h1
  simp only at h1
  rcases hg : dictGet s.rooms room with _ | cs
  · rw [removeFromRooms_none s.rooms room u hg] at h1
    exact ⟨c', h1, m1⟩
  · rw [removeFromRooms_some s.rooms room u cs hg] at h1
    by_cases hu : dictHas cs u
    · rw [if_pos hu] at h1
      by_cases he : dictRemove cs u = []
      · rw [if_pos he] at h1
        by_cases hr : r' = room
        · subst hr
          rw [dictGet_dictRemove_self] at h1
          cases h1
        · rw [dictGet_dictRemove_ne _ hr] at h1
          exact ⟨c', h1, m1⟩
      · rw [if_neg he] at h1
        by_cases hr : r' = room
        · subst hr
          rw [dictGet_dictInsert_self] at h1
          cases h1
          exact ⟨cs, hg, dictHas_of_dictRemove m1⟩
        · rw [dictGet_dictInsert_ne _ _ hr] at h1
          exact ⟨c', h1, m1⟩
    · rw [if_neg hu] at h1
      exact ⟨c', h1, m1⟩

theorem disconnect_idem (s : SState) (room u : String) :
    disconnect (disconnect s room u) room u = disconnect s room u := by
  have husers : dictGet (disconnect s room u).users u = none :=
    users_disconnect_self s room u
  have hrooms : removeFromRooms (disconnect s room u).rooms room u =
      (disconnect s room u).rooms := by
    rcases hg : dictGet (disconnect s room u).rooms room with _ | cs
    · exact removeFromRooms_none _ room u hg
    · rw [removeFromRooms_some _ room u cs hg,
        if_neg (by rw [rooms_disconnect_self s room u cs hg]; exact Bool.false_ne_true)]
  show disconnect (disconnect s room u) room u = disconnect s room u
  rw [disconnect, disconnect]
  simp only
  rw [disconnect] at hrooms
  simp only at hrooms
  rw [hrooms]
  congr 1
  rw [removeFromUsers]
  rw [disconnect] at husers
  simp only at husers
  rw [if_neg (by rw [dictHas, husers]; exact Bool.false_ne_true)]

/-- C6 (amended): `disconnect(room, u)` leaves the rooms map unchanged
when the room is absent or `u` is not a member of it, and never raises;
but on the users map it always deletes `u`'s entry when present, even
when `u` is not a member of the given room; it is idempotent. -/
theorem C6_remove_absent (s : SState) (room u : String) :
    (dictGet s.rooms room = none → (disconnect s room u).rooms = s.rooms)
    ∧ (∀ conns, dictGet s.rooms room = some conns → dictHas conns u = false →
        (disconnect s room u).rooms = s.rooms)
    ∧ (disconnect s room u).users = dictRemove s.users u
    ∧ disconnect (disconnect s room u) room u = disconnect s room u := by
  refine ⟨?_, ?_, ?_, disconnect_idem s room u⟩
  · intro h
    rw [disconnect]
    simp only
    exact removeFromRooms_none s.rooms room u h
  · intro conns h hu
    rw [disconnect]
    simp only
    rw [removeFromRooms_some s.rooms room u conns h,
      if_neg (by rw [hu]; exact Bool.false_ne_true)]
  · rw [disconnect]
    simp only
    rw [removeFromUsers]
    by_cases h : dictHas s.users u
    · rw [if_pos h]
    · rw [if_neg h]
      rw [dictHas] at h
      exact (dictRemove_of_none s.users u (Option.not_isSome_iff_eq_none.mp h)).symm

/-- C6 counterexample: `A` has joined room `"r2"`; calling
`disconnect("r1", "A")` — a room `A` is not a member of — is not a no-op
on the registry: it deletes `A`'s entry from the users map. -/
theorem C6_counterexample :
    disconnect (joinRoom initState "r2" "A" 0 []) "r1" "A" ≠
      joinRoom initState "r2" "A" 0 [] := by
  decide

/-- C6 witness: concrete instance of the amended statement. -/
theorem C6_remove_absent_witness :
    (disconnect (joinRoom initState "r2" "A" 0 []) "r1" "A").rooms =
        (joinRoom initState "r2" "A" 0 []).rooms
    ∧ (disconnect (joinRoom initState "r2" "A" 0 []) "r1" "A").users =
        dictRemove (joinRoom initState "r2" "A" 0 []).users "A" :=
  ⟨(C6_remove_absent (joinRoom initState "r2" "A" 0 []) "r1" "A").1 (by decide),
   (C6_remove_absent (joinRoom initState "r2" "A" 0 []) "r1" "A").2.2.1⟩

/-! Lookup lemmas for `joinRoom`. -/

theorem joinRoom_rooms_self_none (s : SState) (room u : String) (ws : Nat)
    (info : Dict String) (h : dictGet s.rooms room = none) :
    dictGet (joinRoom s room u ws info).rooms room = some [(u, ws)] := by
  rw [joinRoom]
  simp only
  rw [h, dictGet_dictInsert_self]
  rfl

theorem joinRoom_rooms_self_some (s : SState) (room u : String) (ws : Nat)
    (info : Dict String) (conns : Dict Nat) (h : dictGet s.rooms room = some conns) :
    dictGet (joinRoom s room u ws info).rooms room = some (dictInsert conns u ws) := by
  rw [joinRoom]
  simp only
  rw [h, dictGet_dictInsert_self]

theorem joinRoom_rooms_ne (s : SState) (room u : String) (ws : Nat)
    (info : Dict String) {r : String} (h : r ≠ room) :
    dictGet (joinRoom s room u ws info).rooms r = dictGet s.rooms r := by
  rw [joinRoom]
  simp only
  rw [dictGet_dictInsert_ne _ _ h]

theorem joinRoom_users_self (s : SState) (room u : String) (ws : Nat)
    (info : Dict String) :
    dictGet (joinRoom s room u ws info).users u = some (mkUserRec info room) := by
  rw [joinRoom]
  simp only
  rw [dictGet_dictInsert_self]

/-- A guarded join cannot put the joined user, nor anyone else, into two
distinct rooms: helper for the `uniqRoom` preservation proof. -/
theorem join_no_cross (s : SState) (room u : String) (ws : Nat)
    (info : Dict String) (hu : uniqRoom s) (hok : okJoin s room u = true)
    (r2 : String) (c1 c2 : Dict Nat) (u' : String)
    (h1 : dictGet (joinRoom s room u ws info).rooms room = some c1)
    (h2 : dictGet s.rooms r2 = some c2) (hne : r2 ≠ room)
    (m1 : dictHas c1 u' = true) (m2 : dictHas c2 u' = true) : False := by
  by_cases huu : u' = u
  · subst huu
    have hmem := mem_of_dictGet h2
    have hall := List.all_eq_true.mp hok _ hmem
    simp only [Bool.or_eq_true, Bool.not_eq_true', beq_iff_eq] at hall
    rcases hall with hl | hr
    · rw [m2] at hl
      cases hl
    · exact hne hr
  · rcases hg : dictGet s.rooms room with _ | cs
    · rw [joinRoom_rooms_self_none s room u ws info hg] at h1
      cases h1
      rw [dictHas, dictGet] at m1
      simp only [show ¬ (u = u') from fun hh => huu hh.symm, if_neg] at m1
      simp [dictGet] at m1
    · rw [joinRoom_rooms_self_some s room u ws info cs hg] at h1
      cases h1
      rw [dictHas, dictGet_dictInsert_ne cs ws huu] at m1
      exact hne (hu room r2 cs c2 u' hg h2 m1 m2).symm

theorem uniqRoom_joinRoom (s : SState) (room u : String) (ws : Nat)
    (info : Dict String) (hu : uniqRoom s) (hok : okJoin s room u = true) :
    uniqRoom (joinRoom s room u ws info) := by
  intro r1 r2 c1 c2 u' h1 h2 m1 m2
  by_cases e1 : r1 = room <;> by_cases e2 : r2 = room
  · rw [e1, e2]
  · exfalso
    rw [joinRoom_rooms_ne s room u ws info e2] at h2
    rw [e1] at h1
    exact join_no_cross s room u ws info hu hok r2 c1 c2 u' h1 h2 e2 m1 m2
  · exfalso
    rw [joinRoom_rooms_ne s room u ws info e1] at h1
    rw [e2] at h2
    exact join_no_cross s room u ws info hu hok r1 c2 c1 u' h2 h1 e1 m2 m1
  · rw [joinRoom_rooms_ne s room u ws info e1] at h1
    rw [joinRoom_rooms_ne s room u ws info e2] at h2
    exact hu r1 r2 c1 c2 u' h1 h2 m1 m2

theorem uniqRoom_disconnect (s : SState) (room u : String) (hu : uniqRoom s) :
    uniqRoom (disconnect s room u) := by
  intro r1 r2 c1 c2 u' h1 h2 m1 m2
  rcases mem_rooms_disconnect s room u h1 m1 with ⟨d1, hd1, hm1⟩
  rcases mem_rooms_disconnect s room u h2 m2 with ⟨d2, hd2, hm2⟩
  exact hu r1 r2 d1 d2 u' hd1 hd2 hm1 hm2

theorem uniqRoom_foldOps (ops : List Op) :
    ∀ s : SState, uniqRoom s → okOps s ops = true →
      uniqRoom (ops.foldl applyOp s) := by
  induction ops with
  | nil => intro s h _; exact h
  | cons op rest ih =>
    intro s h hok
    cases op with
    | join r u w i =>
      simp only [okOps, Bool.and_eq_true] at hok
      rw [List.foldl_cons]
      exact ih _ (uniqRoom_joinRoom s r u w i h hok.1) hok.2
    | leave r u =>
      simp only [okOps, Bool.and_eq_true] at hok
      rw [List.foldl_cons]
      exact ih _ (uniqRoom_disconnect s r u h) hok.2

/-- C7 (amended): the claimed invariant holds only for guarded operation
sequences — ones where every join is for a user currently in no other
room.  For such sequences from the empty registry, a participant key is
in the connection map of at most one room at any instant. -/
theorem C7_unique_room_guarded (ops : List Op)
    (h : okOps initState ops = true) : uniqRoom (runOps ops) := by
  apply uniqRoom_foldOps ops initState ?_ h
  intro r1 r2 c1 c2 u h1 h2 m1 m2
  simp [initState, dictGet] at h1

/-- C7 counterexample: two connections for the same user key `"A"` join
rooms `"r1"` and `"r2"`; afterwards `"A"` is in the connection maps of
both rooms at once, refuting the claimed invariant. -/
theorem C7_counterexample :
    ¬ uniqRoom (runOps [Op.join "r1" "A" 0 [], Op.join "r2" "A" 1 []]) := by
  intro h
  have h12 := h "r1" "r2" [("A", 0)] [("A", 1)] "A"
    (by decide) (by decide) (by decide) (by decide)
  exact absurd h12 (by decide)

/-- C7 witness: a guarded sequence (the user leaves `"r1"` before joining
`"r2"`) satisfies the hypothesis and the invariant. -/
theorem C7_unique_room_guarded_witness :
    okOps initState
        [Op.join "r1" "A" 0 [], Op.leave "r1" "A", Op.join "r2" "A" 1 []] = true
    ∧ uniqRoom (runOps
        [Op.join "r1" "A" 0 [], Op.leave "r1" "A", Op.join "r2" "A" 1 []]) :=
  ⟨by decide, C7_unique_room_guarded _ (by decide)⟩

/-! Lemmas about `broadcast_to_room`. -/

theorem broadcast_eq_none (s : SState) (room : String) (msg : OutMsg)
    (exclude : Option String) (fail : String → Bool)
    (h : dictGet s.rooms room = none) :
    broadcast_to_room s room msg exclude fail = (s, []) := by
  rw [broadcast_to_room, h]

theorem broadcast_eq_some (s : SState) (room : String) (msg : OutMsg)
    (exclude : Option String) (fail : String → Bool) (conns : Dict Nat)
    (h : dictGet s.rooms room = some conns) :
    broadcast_to_room s room msg exclude fail =
      ((broadcastLoop exclude fail msg conns).2.foldl
         (fun st u => disconnect st room u) s,
       (broadcastLoop exclude fail msg conns).1) := by
  rw [broadcast_to_room, h]

theorem broadcastLoop_sent (exclude : Option String) (fail : String → Bool)
    (msg : OutMsg) (l : List (String × Nat)) :
    (broadcastLoop exclude fail msg l).1 =
      (l.filter (fun p => decide (some p.1 ≠ exclude) && !(fail p.1))).map
        (fun p => (p.1, msg)) := by
  induction l with
  | nil => rfl
  | cons p rest ih =>
    by_cases he : some p.1 = exclude
    · simp [broadcastLoop, he, ih]
    · by_cases hf : fail p.1
      · simp [broadcastLoop, he, hf, ih]
      · simp [broadcastLoop, he, hf, ih]

theorem broadcastLoop_failed (exclude : Option String) (fail : String → Bool)
    (msg : OutMsg) (l : List (String × Nat)) :
    (broadcastLoop exclude fail msg l).2 =
      (l.filter (fun p => decide (some p.1 ≠ exclude) && fail p.1)).map Prod.fst := by
  induction l with
  | nil => rfl
  | cons p rest ih =>
    by_cases he : some p.1 = exclude
    · simp [broadcastLoop, he, ih]
    · by_cases hf : fail p.1
      · simp [broadcastLoop, he, hf, ih]
      · simp [broadcastLoop, he, hf, ih]

/-! Absence of a user is preserved by further disconnects, and created by
a disconnect of that user: lemmas for the broadcast cleanup fold. -/

theorem users_disconnect_pres (s : SState) (room' v u : String)
    (h : dictGet s.users u = none) :
    dictGet (disconnect s room' v).users u = none := by
  rw [disconnect]
  simp only
  rw [removeFromUsers]
  by_cases hv : dictHas s.users v
  · rw [if_pos hv]
    by_cases huv : u = v
    · subst huv
      exact dictGet_dictRemove_self s.users u
    · rw [dictGet_dictRemove_ne _ huv]
      exact h
  · rw [if_neg hv]
    exact h

theorem disconnect_absent_pres (s : SState) (room' v room u : String)
    (hr : ∀ c', dictGet s.rooms room = some c' → dictHas c' u = false)
    (hu : dictGet s.users u = none) :
    (∀ c', dictGet (disconnect s room' v).rooms room = some c' →
      dictHas c' u = false)
    ∧ dictGet (disconnect s room' v).users u = none := by
  refine ⟨?_, users_disconnect_pres s room' v u hu⟩
  intro c' hc
  by_cases hb : dictHas c' u = true
  · rcases mem_rooms_disconnect s room' v hc hb with ⟨c, hcc, hm⟩
    rw [hr c hcc] at hm
    cases hm
  · exact Bool.not_eq_true _ ▸ (Bool.eq_false_iff.mpr hb)

theorem fold_disconnect_pres (room u : String) (l : List String) :
    ∀ s : SState,
      (∀ c', dictGet s.rooms room = some c' → dictHas c' u = false) →
      dictGet s.users u = none →
      (∀ c', dictGet (l.foldl (fun st v => disconnect st room v) s).rooms room =
          some c' → dictHas c' u = false)
      ∧ dictGet (l.foldl (fun st v => disconnect st room v) s).users u = none := by
  induction l with
  | nil => intro s hr hu; exact ⟨hr, hu⟩
  | cons v rest ih =>
    intro s hr hu
    rw [List.foldl_cons]
    rcases disconnect_absent_pres s room v room u hr hu with ⟨hr', hu'⟩
    exact ih (disconnect s room v) hr' hu'

theorem fold_disconnect_removes (room u : String) (l : List String)
    (hmem : u ∈ l) :
    ∀ s : SState,
      (∀ c', dictGet (l.foldl (fun st v => disconnect st room v) s).rooms room =
          some c' → dictHas c' u = false)
      ∧ dictGet (l.foldl (fun st v => disconnect st room v) s).users u = none := by
  induction l with
  | nil => cases hmem
  | cons v rest ih =>
    intro s
    rw [List.foldl_cons]
    rcases List.mem_cons.mp hmem with hv | hv
    · subst hv
      exact fold_disconnect_pres room u rest (disconnect s room u)
        (rooms_disconnect_self s room u) (users_disconnect_self s room u)
    · exact ih hv (disconnect s room v)

/-- C2: with the room present, `broadcast_to_room` delivers the message to
exactly the non-excluded members whose send does not raise (so one
recipient's failure never blocks the others), every delivered message is
the broadcast message itself (removal of a failed recipient triggers no
further broadcast within the call), and every non-excluded member whose
send raises has been removed from both the rooms map and the users map
by the time the call returns. -/
theorem C2_broadcast_behavior (s : SState) (room : String) (msg : OutMsg)
    (exclude : Option String) (fail : String → Bool) (conns : Dict Nat)
    (h : dictGet s.rooms room = some conns) :
    (broadcast_to_room s room msg exclude fail).2 =
      (conns.filter (fun p => decide (some p.1 ≠ exclude) && !(fail p.1))).map
        (fun p => (p.1, msg))
    ∧ (∀ q ∈ (broadcast_to_room s room msg exclude fail).2, q.2 = msg)
    ∧ (∀ u, some u ≠ exclude → dictHas conns u = true → fail u = true →
        (∀ c', dictGet (broadcast_to_room s room msg exclude fail).1.rooms room =
            some c' → dictHas c' u = false)
        ∧ dictGet (broadcast_to_room s room msg exclude fail).1.users u = none) := by
  rw [broadcast_eq_some s room msg exclude fail conns h]
  simp only
  refine ⟨broadcastLoop_sent exclude fail msg conns, ?_, ?_⟩
  · intro q hq
    rw [broadcastLoop_sent exclude fail msg conns] at hq
    rcases List.mem_map.mp hq with ⟨p, _, hp⟩
    rw [← hp]
  · intro u hex hm hf
    apply fold_disconnect_removes room u _ ?_ s
    rw [broadcastLoop_failed exclude fail msg conns]
    rcases Option.isSome_iff_exists.mp hm with ⟨w, hw⟩
    apply List.mem_map.mpr
    refine ⟨(u, w), ?_, rfl⟩
    apply List.mem_filter.mpr
    refine ⟨mem_of_dictGet hw, ?_⟩
    rw [decide_eq_true hex, hf]
    rfl

/-- C2 witness: room `"r1"` holds `A`, `B`, `C`; broadcasting with `A`
excluded while sends to `B` raise delivers only to `C` and removes `B`
from the registry. -/
theorem C2_broadcast_behavior_witness :
    (broadcast_to_room demoState3 "r1" (OutMsg.speaking "A" true) (some "A")
        failB).2 = [("C", OutMsg.speaking "A" true)]
    ∧ dictGet (broadcast_to_room demoState3 "r1" (OutMsg.speaking "A" true)
        (some "A") failB).1.users "B" = none :=
  ⟨(C2_broadcast_behavior demoState3 "r1" (OutMsg.speaking "A" true) (some "A")
      failB [("A", 10), ("B", 11), ("C", 12)] (by decide)).1.trans (by decide),
   ((C2_broadcast_behavior demoState3 "r1" (OutMsg.speaking "A" true) (some "A")
      failB [("A", 10), ("B", 11), ("C", 12)] (by decide)).2.2 "B" (by decide)
      (by decide) (by decide)).2⟩

/-! Lemmas about `send_to_user` and the signaling relay. -/

theorem send_to_user_none (s : SState) (room u : String) (msg : OutMsg)
    (fail : String → Bool) (h : dictGet s.rooms room = none) :
    send_to_user s room u msg fail = (s, []) := by
  rw [send_to_user, h]

theorem send_to_user_some (s : SState) (room u : String) (msg : OutMsg)
    (fail : String → Bool) (conns : Dict Nat)
    (h : dictGet s.rooms room = some conns) :
    send_to_user s room u msg fail =
      if dictHas conns u then
        if fail u then (disconnect s room u, []) else (s, [(u, msg)])
      else (s, []) := by
  rw [send_to_user, h]

/-- C8: a unicast whose target is absent from the room (or whose room is
absent altogether) delivers nothing, raises nothing, and leaves the
registry state unchanged. -/
theorem C8_unicast_absent_noop (s : SState) (room t : String) (msg : OutMsg)
    (fail : String → Bool) :
    (dictGet s.rooms room = none → send_to_user s room t msg fail = (s, []))
    ∧ (∀ conns, dictGet s.rooms room = some conns → dictHas conns t = false →
        send_to_user s room t msg fail = (s, [])) := by
  constructor
  · intro h
    exact send_to_user_none s room t msg fail h
  · intro conns h ht
    rw [send_to_user_some s room t msg fail conns h,
      if_neg (by rw [ht]; exact Bool.false_ne_true)]

/-- C8 witness: sending to `"Z"`, not a member of `"r1"`, is a no-op. -/
theorem C8_unicast_absent_noop_witness :
    send_to_user demoState3 "r1" "Z" (OutMsg.userLeft "q") noFail =
      (demoState3, []) :=
  (C8_unicast_absent_noop demoState3 "r1" "Z" (OutMsg.userLeft "q") noFail).2
    [("A", 10), ("B", 11), ("C", 12)] (by decide) (by decide)

/-- C5: for any sender and any inbound `offer` / `answer` / `ice_candidate`
carrying a target that is a live member of the room, the dispatch loop
unicasts to the target exactly the envelope `{type, from_user_id, payload}`
with the payload passed through unmodified, and changes no state. -/
theorem C5_signaling_relay (s : SState) (room sender t : String)
    (p : Option String) (fail : String → Bool) (conns : Dict Nat)
    (h : dictGet s.rooms room = some conns) (hm : dictHas conns t = true)
    (hf : fail t = false) :
    handleSignal room sender s (InMsg.offer (some t) p) fail =
        (s, [(t, OutMsg.offer sender p)])
    ∧ handleSignal room sender s (InMsg.answer (some t) p) fail =
        (s, [(t, OutMsg.answer sender p)])
    ∧ handleSignal room sender s (InMsg.ice (some t) p) fail =
        (s, [(t, OutMsg.iceCandidate sender p)]) := by
  have key : ∀ msg : OutMsg, send_to_user s room t msg fail = (s, [(t, msg)]) := by
    intro msg
    rw [send_to_user_some s room t msg fail conns h, if_pos hm,
      if_neg (by rw [hf]; exact Bool.false_ne_true)]
  exact ⟨key _, key _, key _⟩

/-- C5 witness: `A` sends `offer{target_user_id: "B", offer: "SDP_X"}` and
`B` receives exactly `{type: "offer", from_user_id: "A", offer: "SDP_X"}`. -/
theorem C5_signaling_relay_witness :
    handleSignal "r1" "A" demoState3 (InMsg.offer (some "B") (some "SDP_X"))
        noFail = (demoState3, [("B", OutMsg.offer "A" (some "SDP_X"))]) :=
  (C5_signaling_relay demoState3 "r1" "A" "B" (some "SDP_X") noFail
    [("A", 10), ("B", 11), ("C", 12)] (by decide) (by decide) (by decide)).1

/-! Lemmas about `get_room_participants`. -/

theorem grp_none (s : SState) (room : String)
    (h : dictGet s.rooms room = none) : get_room_participants s room = [] := by
  rw [get_room_participants, h]

theorem grp_some (s : SState) (room : String) (conns : Dict Nat)
    (h : dictGet s.rooms room = some conns) :
    get_room_participants s room = listParts s.users conns := by
  rw [get_room_participants, h]

theorem listParts_eq (users : Dict (Dict String)) (conns : List (String × Nat)) :
    listParts users conns =
      (conns.filter (fun p => dictHas users p.1)).map
        (fun p => participantEntry p.1 ((dictGet users p.1).getD [])) := by
  induction conns with
  | nil => rfl
  | cons p rest ih =>
    rcases hg : dictGet users p.1 with _ | rec
    · rw [listParts, hg, ih]
      have : dictHas users p.1 = false := by rw [dictHas, hg]; rfl
      simp [this]
    · rw [listParts, hg, ih]
      have : dictHas users p.1 = true := by rw [dictHas, hg]; rfl
      simp [this, hg]

/-- C9: the participant listing returns exactly the entries for the room
members that also have a record in the users map; a member of the room's
connection map whose users record is missing (here: wiped by a
`disconnect` naming a different room for the same user key) is silently
omitted rather than listed or raising. -/
theorem C9_listing_filters (s : SState) (room : String) (conns : Dict Nat)
    (h : dictGet s.rooms room = some conns) :
    get_room_participants s room =
      (conns.filter (fun p => dictHas s.users p.1)).map
        (fun p => participantEntry p.1 ((dictGet s.users p.1).getD []))
    ∧ get_room_participants
        (disconnect (joinRoom initState "r2" "A" 0 [("name", "x")]) "r1" "A")
        "r2" = []
    ∧ dictGet
        (disconnect (joinRoom initState "r2" "A" 0 [("name", "x")]) "r1" "A").rooms
        "r2" = some [("A", 0)] := by
  refine ⟨?_, by decide, by decide⟩
  rw [grp_some s room conns h]
  exact listParts_eq s.users conns

/-- C9 witness: room `"r2"` still holds `A` in its connection map, yet the
listing is empty because `A`'s users record was deleted by a `disconnect`
naming room `"r1"`. -/
theorem C9_listing_filters_witness :
    get_room_participants
        (disconnect (joinRoom initState "r2" "A" 0 [("name", "x")]) "r1" "A")
        "r2" = [] :=
  (C9_listing_filters
    (disconnect (joinRoom initState "r2" "A" 0 [("name", "x")]) "r1" "A")
    "r2" [("A", 0)] (by decide)).2.1

/-- C10: the record stored for a joiner is the caller-supplied metadata
bag with a `"room_id"` binding set to the joined room, overriding any
caller-supplied `"room_id"`; a later join for the same key overwrites the
record in place (the users map does not grow); and a listing entry built
from it carries `"user_id"`, the `"room_id"`, and the metadata unchanged
(for metadata bags without a reserved `"user_id"` key). -/
theorem C10_metadata_merge (s : SState) (room u : String) (ws : Nat)
    (info : Dict String) :
    dictGet (joinRoom s room u ws info).users u = some (mkUserRec info room)
    ∧ dictGet (mkUserRec info room) "room_id" = some room
    ∧ (∀ k, k ≠ "room_id" → dictGet (mkUserRec info room) k = dictGet info k)
    ∧ (dictHas s.users u = true →
        (joinRoom s room u ws info).users.length = s.users.length)
    ∧ (NodupKeys info → dictGet info "user_id" = none →
        dictGet (participantEntry u (mkUserRec info room)) "user_id" = some u
        ∧ dictGet (participantEntry u (mkUserRec info room)) "room_id" = some room
        ∧ ∀ k, k ≠ "room_id" → k ≠ "user_id" →
            dictGet (participantEntry u (mkUserRec info room)) k =
              dictGet info k) := by
  refine ⟨joinRoom_users_self s room u ws info,
    dictGet_dictInsert_self info "room_id" room,
    fun k hk => dictGet_dictInsert_ne info room hk, ?_, ?_⟩
  · intro hu
    rw [joinRoom]
    simp only
    exact length_dictInsert_of_has s.users u (mkUserRec info room) hu
  · intro hnd hid
    have hndrec : NodupKeys (mkUserRec info room) :=
      nodupKeys_dictInsert info "room_id" room hnd
    have hrecid : dictGet (mkUserRec info room) "user_id" = none := by
      rw [mkUserRec, dictGet_dictInsert_ne info room (by decide)]
      exact hid
    refine ⟨?_, ?_, ?_⟩
    · rw [participantEntry,
        dictGet_dictMerge_of_none _ _ _ ((dictGet_eq_none_iff _ _).mp hrecid)]
      simp [dictGet]
    · exact dictGet_dictMerge_of_some _ _ _ room hndrec
        (dictGet_dictInsert_self info "room_id" room)
    · intro k hk hk2
      rcases hg : dictGet info k with _ | v
      · have hrec : dictGet (mkUserRec info room) k = none := by
          rw [mkUserRec, dictGet_dictInsert_ne info room hk]
          exact hg
        rw [participantEntry,
          dictGet_dictMerge_of_none _ _ _ ((dictGet_eq_none_iff _ _).mp hrec)]
        have hne : ¬ "user_id" = k := fun hh => hk2 hh.symm
        simp [dictGet, hne, hg]
      · have hrec : dictGet (mkUserRec info room) k = some v := by
          rw [mkUserRec, dictGet_dictInsert_ne info room hk]
          exact hg
        exact dictGet_dictMerge_of_some _ _ _ v hndrec hrec

/-- C10 witness: metadata `{"name": "Alice", "room_id": "HACK"}` is stored
with `"room_id"` overridden to the joined room, and the listing entry
carries the joiner's key. -/
theorem C10_metadata_merge_witness :
    dictGet (mkUserRec [("name", "Alice"), ("room_id", "HACK")] "r1")
        "room_id" = some "r1"
    ∧ dictGet (participantEntry "A"
        (mkUserRec [("name", "Alice"), ("room_id", "HACK")] "r1"))
        "user_id" = some "A" :=
  ⟨(C10_metadata_merge initState "r1" "A" 0
      [("name", "Alice"), ("room_id", "HACK")]).2.1,
   ((C10_metadata_merge initState "r1" "A" 0
      [("name", "Alice"), ("room_id", "HACK")]).2.2.2.2 (by decide)
      (by decide)).1⟩

/-! Absence of a user is preserved by every step of the dispatch loop:
the loop only ever removes registry entries, never adds them. -/

theorem absentUser_of_forall (s : SState) (u : String)
    (h1 : dictGet s.users u = none)
    (h2 : ∀ p ∈ s.rooms, dictHas p.2 u = false) : absentUser s u := by
  refine ⟨h1, ?_⟩
  intro r c hc
  exact h2 (r, c) (mem_of_dictGet hc)

theorem absent_disconnect (s : SState) (room' v u : String)
    (h : absentUser s u) : absentUser (disconnect s room' v) u := by
  refine ⟨users_disconnect_pres s room' v u h.1, ?_⟩
  intro r c hc
  by_cases hb : dictHas c u = true
  · rcases mem_rooms_disconnect s room' v hc hb with ⟨c0, hc0, hm0⟩
    rw [h.2 r c0 hc0] at hm0
    cases hm0
  · exact Bool.not_eq_true _ ▸ (Bool.eq_false_iff.mpr hb)

theorem absent_fold (room u : String) (l : List String) :
    ∀ s : SState, absentUser s u →
      absentUser (l.foldl (fun st v => disconnect st room v) s) u := by
  induction l with
  | nil => intro s h; exact h
  | cons v rest ih =>
    intro s h
    rw [List.foldl_cons]
    exact ih (disconnect s room v) (absent_disconnect s room v u h)

theorem absent_broadcast (s : SState) (room : String) (msg : OutMsg)
    (exclude : Option String) (fail : String → Bool) (u : String)
    (h : absentUser s u) :
    absentUser (broadcast_to_room s room msg exclude fail).1 u := by
  rcases hg : dictGet s.rooms room with _ | conns
  · rw [broadcast_eq_none s room msg exclude fail hg]
    exact h
  · rw [broadcast_eq_some s room msg exclude fail conns hg]
    exact absent_fold room u _ s h

theorem absent_send (s : SState) (room t : String) (msg : OutMsg)
    (fail : String → Bool) (u : String) (h : absentUser s u) :
    absentUser (send_to_user s room t msg fail).1 u := by
  rcases hg : dictGet s.rooms room with _ | conns
  · rw [send_to_user_none s room t msg fail hg]
    exact h
  · rw [send_to_user_some s room t msg fail conns hg]
    by_cases hm : dictHas conns t
    · rw [if_pos hm]
      by_cases hf : fail t
      · rw [if_pos hf]
        exact absent_disconnect s room t u h
      · rw [if_neg hf]
        exact h
    · rw [if_neg hm]
      exact h

theorem absent_handleSignal (room v : String) (s : SState) (m : InMsg)
    (fail : String → Bool) (u : String) (h : absentUser s u) :
    absentUser (handleSignal room v s m fail).1 u := by
  cases m with
  | join info => exact h
  | offer t p =>
    cases t with
    | none => exact h
    | some t0 => exact absent_send s room t0 _ fail u h
  | answer t p =>
    cases t with
    | none => exact h
    | some t0 => exact absent_send s room t0 _ fail u h
  | ice t p =>
    cases t with
    | none => exact h
    | some t0 => exact absent_send s room t0 _ fail u h
  | speaking b => exact absent_broadcast s room _ (some v) fail u h
  | other => exact h

theorem absent_finallyStep (room v : String) (s : SState)
    (fail : String → Bool) (u : String) (h : absentUser s u) :
    absentUser (finallyStep room v s fail).1 u :=
  absent_broadcast (disconnect s room v) room (OutMsg.userLeft v) none fail u
    (absent_disconnect s room v u h)

theorem absent_runLoop (room v : String) (fail : String → Bool) (u : String)
    (script : List InMsg) :
    ∀ s : SState, absentUser s u →
      absentUser (runLoop room v fail s script).1 u := by
  induction script with
  | nil => intro s h; exact absent_finallyStep room v s fail u h
  | cons m rest ih =>
    intro s h
    exact ih (handleSignal room v s m fail).1
      (absent_handleSignal room v s m fail u h)

/-- C3 (amended): a connection that never sends a valid first `join` —
its first inbound message is not a `join`, or its channel closes before
any message arrives — never registers its participant (an initially
absent user stays absent from both registry maps for the entire run),
but it does not behave as the claim states: after a non-join first
message the run continues into the signaling dispatch loop (so later
`offer`/`answer`/`ice_candidate` messages are still relayed), closure
before any message funnels straight into the `finally` block, and in
both cases that block still broadcasts a `user_left` for the connection's
user id to whatever room its path named. -/
theorem C3_nonjoin_first (room u : String) (ws : Nat) (s : SState)
    (script : List InMsg) (fail : String → Bool)
    (hm : noJoinFirst script = true) (h : absentUser s u) :
    absentUser (runEndpoint room u ws s script fail).1 u
    ∧ (∀ m rest, script = m :: rest →
        runEndpoint room u ws s script fail = runLoop room u fail s rest)
    ∧ runEndpoint room u ws s [] fail = finallyStep room u s fail
    ∧ (∀ conns, dictGet (disconnect s room u).rooms room = some conns →
        (finallyStep room u s fail).2 =
          (conns.filter (fun p => !(fail p.1))).map
            (fun p => (p.1, OutMsg.userLeft u))) := by
  have heq : ∀ (m : InMsg) (r : List InMsg), notJoin m = true →
      runEndpoint room u ws s (m :: r) fail = runLoop room u fail s r := by
    intro m r hm'
    cases m with
    | join info => rw [notJoin] at hm'; cases hm'
    | offer t p => rfl
    | answer t p => rfl
    | ice t p => rfl
    | speaking b => rfl
    | other => rfl
  refine ⟨?_, ?_, rfl, ?_⟩
  · cases script with
    | nil => exact absent_finallyStep room u s fail u h
    | cons m rest =>
      have hm' : notJoin m = true := hm
      rw [heq m rest hm']
      exact absent_runLoop room u fail u rest s h
  · intro m rest hscript
    subst hscript
    exact heq m rest hm
  · intro conns hc
    rw [finallyStep, broadcast_eq_some _ _ _ _ _ conns hc]
    simp only
    rw [broadcastLoop_sent]
    have hpred : (fun p : String × Nat => decide (some p.1 ≠ none) && !fail p.1) =
        (fun p : String × Nat => !fail p.1) := by
      funext p
      simp
    rw [hpred]

/-- C3 counterexample: `B` is alone in room `"r1"`.  First, a connection
for `(room "r1", user "A")` whose first message is not a `join` then
sends an `offer` targeting `B`: the offer is relayed to `B`, and on
closure `B` receives `user_left{user_id: "A"}` — even though `A` was
never registered.  Second, a connection for the same path whose channel
closes before any message arrives: `B` still receives
`user_left{user_id: "A"}`.  Both runs contradict the claimed direct
transition to Closed with no relaying and no leave-broadcast. -/
theorem C3_counterexample :
    runEndpoint "r1" "A" 7 (joinRoom initState "r1" "B" 5 [])
        [InMsg.other, InMsg.offer (some "B") (some "SDP_X")] noFail =
      (joinRoom initState "r1" "B" 5 [],
       [("B", OutMsg.offer "A" (some "SDP_X")),
        ("B", OutMsg.userLeft "A")])
    ∧ runEndpoint "r1" "A" 7 (joinRoom initState "r1" "B" 5 []) [] noFail =
      (joinRoom initState "r1" "B" 5 [], [("B", OutMsg.userLeft "A")]) :=
  ⟨by decide, by decide⟩

/-- C3 witness: concrete instances of the amended statement with `B` in
the room — one for a closure before any message, one for a non-join
first message — plus the `user_left` broadcast contents on closure. -/
theorem C3_nonjoin_first_witness :
    noJoinFirst ([] : List InMsg) = true
    ∧ noJoinFirst [InMsg.other] = true
    ∧ absentUser (runEndpoint "r1" "A" 7 (joinRoom initState "r1" "B" 5 [])
        [] noFail).1 "A"
    ∧ absentUser (runEndpoint "r1" "A" 7 (joinRoom initState "r1" "B" 5 [])
        [InMsg.other] noFail).1 "A"
    ∧ (finallyStep "r1" "A" (joinRoom initState "r1" "B" 5 []) noFail).2 =
        [("B", OutMsg.userLeft "A")] := by
  have habs : absentUser (joinRoom initState "r1" "B" 5 []) "A" :=
    absentUser_of_forall _ "A" (by decide) (by decide)
  refine ⟨rfl, rfl, ?_, ?_, ?_⟩
  · exact (C3_nonjoin_first "r1" "A" 7 (joinRoom initState "r1" "B" 5 [])
      [] noFail rfl habs).1
  · exact (C3_nonjoin_first "r1" "A" 7 (joinRoom initState "r1" "B" 5 [])
      [InMsg.other] noFail rfl habs).1
  · exact ((C3_nonjoin_first "r1" "A" 7 (joinRoom initState "r1" "B" 5 [])
      [] noFail rfl habs).2.2.2 [("B", 5)] (by decide)).trans (by decide)

/-! The `room_state` reply to a joiner. -/

theorem runEndpoint_join_eq (room u : String) (ws : Nat) (s : SState)
    (info : Dict String) (rest : List InMsg) (fail : String → Bool)
    (hf : fail u = false) :
    runEndpoint room u ws s (InMsg.join info :: rest) fail =
      ((runLoop room u fail
          (broadcast_to_room (joinRoom s room u ws info) room
            (OutMsg.userJoined u info) (some u) fail).1 rest).1,
       (u, OutMsg.roomState
          (get_room_participants (joinRoom s room u ws info) room)) ::
        ((broadcast_to_room (joinRoom s room u ws info) room
            (OutMsg.userJoined u info) (some u) fail).2 ++
         (runLoop room u fail
            (broadcast_to_room (joinRoom s room u ws info) room
              (OutMsg.userJoined u info) (some u) fail).1 rest).2)) := by
  simp only [runEndpoint]
  rw [if_neg (by rw [hf]; exact Bool.false_ne_true)]

/-- C4 (amended): the `room_state` reply to a joiner lists the room's
participants as of immediately after the join — including the joiner
itself.  A joiner of a previously empty room therefore receives a
one-element list holding its own entry, not an empty list; and when `B`
joins a room already holding `A`, `B`'s `room_state` lists both `A` and
`B`, not only `A`. -/
theorem C4_room_state_after_join (room u : String) (ws : Nat) (s : SState)
    (info : Dict String) (rest : List InMsg) (fail : String → Bool)
    (hf : fail u = false) :
    (runEndpoint room u ws s (InMsg.join info :: rest) fail).2.head? =
      some (u, OutMsg.roomState
        (get_room_participants (joinRoom s room u ws info) room))
    ∧ (dictGet s.rooms room = none →
        (runEndpoint room u ws s (InMsg.join info :: rest) fail).2.head? =
          some (u, OutMsg.roomState [participantEntry u (mkUserRec info room)]))
    ∧ (runEndpoint "r1" "B" 2 (joinRoom initState "r1" "A" 1 [])
        [InMsg.join []] noFail).2.head? =
      some ("B", OutMsg.roomState
        [[("user_id", "A"), ("room_id", "r1")],
         [("user_id", "B"), ("room_id", "r1")]]) := by
  have hhead : (runEndpoint room u ws s (InMsg.join info :: rest) fail).2.head? =
      some (u, OutMsg.roomState
        (get_room_participants (joinRoom s room u ws info) room)) := by
    rw [runEndpoint_join_eq room u ws s info rest fail hf]
    rfl
  refine ⟨hhead, ?_, by decide⟩
  intro hnone
  have h1 : get_room_participants (joinRoom s room u ws info) room =
      [participantEntry u (mkUserRec info room)] := by
    rw [grp_some _ _ [(u, ws)] (joinRoom_rooms_self_none s room u ws info hnone),
      listParts_eq]
    have hu := joinRoom_users_self s room u ws info
    simp [dictHas, hu]
  rw [hhead, h1]

/-- C4 counterexample: participant `A` joins the empty room `"r1"` and
receives `room_state` whose participants list is `[A's entry]`, not `[]`
as the claim states. -/
theorem C4_counterexample :
    runEndpoint "r1" "A" 3 initState [InMsg.join []] noFail =
      (initState,
       [("A", OutMsg.roomState [[("user_id", "A"), ("room_id", "r1")]])])
    ∧ [[("user_id", "A"), ("room_id", "r1")]] ≠ ([] : List (Dict String)) := by
  constructor
  · decide
  · decide

/-- C4 witness: concrete instance of the amended statement for a
previously empty room. -/
theorem C4_room_state_after_join_witness :
    noFail "A" = false
    ∧ (runEndpoint "rX" "A" 3 initState [InMsg.join []] noFail).2.head? =
        some ("A", OutMsg.roomState [participantEntry "A" (mkUserRec [] "rX")]) :=
  ⟨rfl, (C4_room_state_after_join "rX" "A" 3 initState [] [] noFail rfl).2.1 rfl⟩

end Signal
